import Mathlib

/-!
Verification of the UICP streaming block extractor and loader utilities.

The definitions below are a shallow embedding of the TypeScript sources:

* `processStreamingContent`, `createStreamingParserState`, `parseStreamingContent`
  from the streaming parser module (`src/packages/tools/README.md`, the
  `streaming-parser` source shown there, lines 480-705): a character-level
  state machine that extracts fenced `uicp` blocks from streamed text.
  Text is modelled as `List Char`; the JS string accumulators become
  `List Char` accumulators; `console.warn` / `console.error` calls are
  modelled by an explicit `logs` field on the internal state.
* `jsonParse` models the JavaScript builtin `JSON.parse` (an external
  platform dependency of the source) for the fragment of JSON the blocks
  use: objects, arrays, strings without escape sequences, integer numbers,
  and the literals true/false/null.  `truthy` models JavaScript truthiness
  of a parsed JSON value, and `jget` models JavaScript property access
  (absent properties and non-object bases give `Json.null`, which is falsy,
  matching `undefined`; duplicate keys follow last-wins like `JSON.parse`).
* `loadDefinitionsWithCache` from `src/packages/parser/src/definitions-loader.ts`,
  with the module-level mutable `definitionsCache` map and `Date.now()`
  made explicit arguments (`cache`, `now`), and the external
  `loadDefinitions` collaborator abstracted as a function argument.
* `loadComponent` / `registerComponent` / `getComponent` from
  `src/packages/parser/src/loader.ts`, with the global `componentRegistry`
  made an explicit argument and the dynamic `import()` abstracted as a
  function returning `Except` (a thrown error is `Except.error`).  Module
  export objects are modelled as association lists of truthy export values
  tagged with their JS `typeof` kind.
-/

namespace UICP

/-- Json values, the result type of the `JSON.parse` model.  Strings are
`List Char` to match the rest of the embedding. -/
inductive Json where
  | null
  | bool (b : Bool)
  | num (n : Int)
  | str (s : List Char)
  | arr (elems : List Json)
  | obj (fields : List (List Char × Json))

/-- Whitespace characters recognised by the embedding (the subset of JSON /
JS whitespace that the sources exercise). -/
def isWsChar (c : Char) : Bool :=
  c = ' ' || c = '\t' || c = '\n' || c = '\r'

/-- Drop leading whitespace. -/
def skipWs : List Char → List Char
  | [] => []
  | c :: cs => if isWsChar c then skipWs cs else c :: cs

/-- Scan a JSON string body up to the closing quote (escape sequences are
outside the modelled fragment and make the parse fail). -/
def scanString : List Char → Option (List Char × List Char)
  | [] => none
  | c :: cs =>
    if c = '"' then some ([], cs)
    else if c = '\\' then none
    else match scanString cs with
      | some (s, r) => some (c :: s, r)
      | none => none

/-- Numeric value of a decimal digit character. -/
def digitVal (c : Char) : Option Nat :=
  if '0' ≤ c ∧ c ≤ '9' then some (c.toNat - ('0').toNat) else none

/-- Split off a maximal run of decimal digits. -/
def takeDigits : List Char → (List Nat × List Char)
  | [] => ([], [])
  | c :: cs =>
    match digitVal c with
    | some d =>
      let (ds, r) := takeDigits cs
      (d :: ds, r)
    | none => ([], c :: cs)

/-- Value of a digit run, most significant first. -/
def digitsToNat (ds : List Nat) : Nat :=
  ds.foldl (fun acc d => acc * 10 + d) 0

/-- Boolean list-prefix test (used by the keyword and fence matching). -/
def startsList : List Char → List Char → Bool
  | [], _ => true
  | _ :: _, [] => false
  | p :: ps, c :: cs => p = c && startsList ps cs

mutual

/-- Parse one JSON value (fuel-indexed recursive descent).  Models the
grammar accepted by `JSON.parse` on the fragment described in the module
comment. -/
def parseVal : Nat → List Char → Option (Json × List Char)
  | 0, _ => none
  | fuel + 1, cs =>
    match skipWs cs with
    | [] => none
    | c :: rest =>
      if c = '\x7b' then parseFields fuel rest []
      else if c = '[' then parseElems fuel rest []
      else if c = '"' then
        match scanString rest with
        | some (s, r) => some (Json.str s, r)
        | none => none
      else if c = '-' then
        match takeDigits rest with
        | ([], _) => none
        | (ds, r) => some (Json.num (-(digitsToNat ds : Int)), r)
      else if (digitVal c).isSome then
        match takeDigits (c :: rest) with
        | ([], _) => none
        | (ds, r) => some (Json.num (digitsToNat ds : Int), r)
      else if startsList ("true".data) (c :: rest) then
        some (Json.bool true, (c :: rest).drop 4)
      else if startsList ("false".data) (c :: rest) then
        some (Json.bool false, (c :: rest).drop 5)
      else if startsList ("null".data) (c :: rest) then
        some (Json.null, (c :: rest).drop 4)
      else none

/-- Parse the members of a JSON object after the opening brace. -/
def parseFields : Nat → List Char → List (List Char × Json) → Option (Json × List Char)
  | 0, _, _ => none
  | fuel + 1, cs, acc =>
    match skipWs cs with
    | [] => none
    | c :: rest =>
      if c = '\x7d' then some (Json.obj acc.reverse, rest)
      else if c = '"' then
        match scanString rest with
        | none => none
        | some (key, afterKey) =>
          match skipWs afterKey with
          | ':' :: afterColon =>
            match parseVal fuel afterColon with
            | none => none
            | some (v, afterVal) =>
              match skipWs afterVal with
              | ',' :: afterComma => parseFields fuel afterComma ((key, v) :: acc)
              | '\x7d' :: afterBrace => some (Json.obj ((key, v) :: acc).reverse, afterBrace)
              | _ => none
          | _ => none
      else none

/-- Parse the elements of a JSON array after the opening bracket. -/
def parseElems : Nat → List Char → List Json → Option (Json × List Char)
  | 0, _, _ => none
  | fuel + 1, cs, acc =>
    match skipWs cs with
    | [] => none
    | c :: rest =>
      if c = ']' then some (Json.arr acc.reverse, rest)
      else
        match parseVal fuel (c :: rest) with
        | none => none
        | some (v, afterVal) =>
          match skipWs afterVal with
          | ',' :: afterComma => parseElems fuel afterComma (v :: acc)
          | ']' :: afterBracket => some (Json.arr (v :: acc).reverse, afterBracket)
          | _ => none

end

/-- Model of `JSON.parse`: parse a whole text as a single JSON value
(trailing non-whitespace is an error, as in JS). -/
def jsonParse (cs : List Char) : Option Json :=
  match parseVal (cs.length + 1) cs with
  | none => none
  | some (v, rest) => if (skipWs rest).isEmpty then some v else none

/-- JavaScript truthiness of a JSON value (`undefined`/absent is modelled
by `Json.null`, which is falsy like `undefined`). -/
def truthy : Json → Bool
  | Json.null => false
  | Json.bool b => b
  | Json.num n => n ≠ 0
  | Json.str s => !s.isEmpty
  | Json.arr _ => true
  | Json.obj _ => true

/-- JavaScript property access `j[key]` on a parsed JSON value: `Json.null`
(standing for `undefined`) when `j` is not an object or lacks the key;
later duplicate keys win, as with `JSON.parse`. -/
def jget (j : Json) (key : List Char) : Json :=
  match j with
  | Json.obj fields => fields.foldl (fun acc p => if p.1 = key then p.2 else acc) Json.null
  | _ => Json.null

/-- Model of JavaScript `String.prototype.trim` on the characters the
sources exercise. -/
def trimChars (cs : List Char) : List Char :=
  ((cs.dropWhile isWsChar).reverse.dropWhile isWsChar).reverse

/-- The `PatternStage` union of the streaming parser source. -/
inductive Stage where
  | none | backtick1 | backtick2 | backtick3
  | u | ui | uic | uicp
  | in_block | closing1 | closing2 | closing3
deriving DecidableEq

/-- Diagnostics the streaming parser writes to the console: `invalidStructure`
models the `console.warn` for a parsed block without truthy `uid`/`data`,
`parseFailed` models the `console.error` in the catch around `JSON.parse`
(also reached when the parsed value is `null`, whose property access throws
a TypeError inside the same try block). -/
inductive LogEntry where
  | invalidStructure
  | parseFailed
deriving DecidableEq

/-- The `InternalState` record of the streaming parser source, with an added
`logs` field recording console diagnostics. -/
structure InternalState where
  stage : Stage
  buffer : List Char
  displayContent : List Char
  completedBlocks : List Json
  blockContent : List Char
  logs : List LogEntry

/-- Key `uid` checked on a parsed block. -/
def uidKey : List Char := "uid".data

/-- Key `data` checked on a parsed block. -/
def dataKey : List Char := "data".data

/-- Outcome of the `closing3` handler on an accumulated block body: the
body is trimmed and run through `JSON.parse`; a parsed value with truthy
`uid` and `data` members is the completed block, anything else produces a
console diagnostic. -/
def blockOutcome (content : List Char) : Json ⊕ LogEntry :=
  match jsonParse (trimChars content) with
  | Option.none => Sum.inr LogEntry.parseFailed
  | some Json.null => Sum.inr LogEntry.parseFailed
  | some parsed =>
    if truthy (jget parsed uidKey) && truthy (jget parsed dataKey) then Sum.inl parsed
    else Sum.inr LogEntry.invalidStructure

/-- The placeholder written into the display stream for block number `n`. -/
def placeholderFor (n : Nat) : List Char :=
  ("__UICP_BLOCK_".data) ++ (Nat.repr n).data ++ ("__".data)

/-- The block-completion part of the source's `closing3` case: push the
parsed block and its placeholder, or record the diagnostic. -/
def finishBlock (s : InternalState) : InternalState :=
  match blockOutcome s.blockContent with
  | Sum.inl parsed =>
    { s with completedBlocks := s.completedBlocks ++ [parsed],
             displayContent := s.displayContent ++ placeholderFor s.completedBlocks.length }
  | Sum.inr entry => { s with logs := s.logs ++ [entry] }

/-- One iteration of the source's character loop (the `switch` on
`state.stage`).  Transcribed case by case from the source, including the
unreachable inner backtick test in the `closing3` case. -/
def step (s : InternalState) (c : Char) : InternalState :=
  match s.stage with
  | Stage.none =>
    if c = '\x60' then { s with stage := Stage.backtick1, buffer := ['\x60'] }
    else { s with displayContent := s.displayContent ++ [c] }
  | Stage.backtick1 =>
    if c = '\x60' then { s with stage := Stage.backtick2, buffer := s.buffer ++ [c] }
    else { s with displayContent := s.displayContent ++ s.buffer ++ [c], buffer := [], stage := Stage.none }
  | Stage.backtick2 =>
    if c = '\x60' then { s with stage := Stage.backtick3, buffer := s.buffer ++ [c] }
    else { s with displayContent := s.displayContent ++ s.buffer ++ [c], buffer := [], stage := Stage.none }
  | Stage.backtick3 =>
    if c = 'u' then { s with stage := Stage.u, buffer := s.buffer ++ [c] }
    else if c = '\x60' then { s with buffer := s.buffer ++ [c] }
    else { s with displayContent := s.displayContent ++ s.buffer ++ [c], buffer := [], stage := Stage.none }
  | Stage.u =>
    if c = 'i' then { s with stage := Stage.ui, buffer := s.buffer ++ [c] }
    else { s with displayContent := s.displayContent ++ s.buffer ++ [c], buffer := [], stage := Stage.none }
  | Stage.ui =>
    if c = 'c' then { s with stage := Stage.uic, buffer := s.buffer ++ [c] }
    else { s with displayContent := s.displayContent ++ s.buffer ++ [c], buffer := [], stage := Stage.none }
  | Stage.uic =>
    if c = 'p' then { s with stage := Stage.uicp, buffer := s.buffer ++ [c] }
    else { s with displayContent := s.displayContent ++ s.buffer ++ [c], buffer := [], stage := Stage.none }
  | Stage.uicp =>
    if c = '\n' || c = ' ' || c = '\t' || c = '\r' then
      { s with stage := Stage.in_block, buffer := [], blockContent := [] }
    else { s with displayContent := s.displayContent ++ s.buffer ++ [c], buffer := [], stage := Stage.none }
  | Stage.in_block =>
    if c = '\x60' then { s with stage := Stage.closing1 }
    else { s with blockContent := s.blockContent ++ [c] }
  | Stage.closing1 =>
    if c = '\x60' then { s with stage := Stage.closing2 }
    else { s with blockContent := s.blockContent ++ ['\x60', c], stage := Stage.in_block }
  | Stage.closing2 =>
    if c = '\x60' then { s with stage := Stage.closing3 }
    else { s with blockContent := s.blockContent ++ ['\x60', '\x60', c], stage := Stage.in_block }
  | Stage.closing3 =>
    let s1 := finishBlock s
    let s2 := { s1 with blockContent := [], buffer := [], stage := Stage.none }
    if c ≠ '\x60' then
      if c = '\x60' then { s2 with stage := Stage.backtick1, buffer := ['\x60'] }
      else { s2 with displayContent := s2.displayContent ++ [c] }
    else s2

/-- The fresh internal state the source builds at the top of
`processStreamingContent`. -/
def initialInternalState : InternalState :=
  { stage := Stage.none, buffer := [], displayContent := [],
    completedBlocks := [], blockContent := [], logs := [] }

/-- Run the character loop from a given internal state. -/
def runFrom (s : InternalState) (cs : List Char) : InternalState :=
  cs.foldl step s

/-- Run the character loop on a whole text from the fresh internal state. -/
def runMachine (cs : List Char) : InternalState :=
  runFrom initialInternalState cs

/-- The exported `StreamingParserState` interface of the source. -/
structure StreamingParserState where
  displayContent : List Char
  hasPendingBlock : Bool
  isInUICPBlock : Bool
  completedBlocks : List Json
  buffer : List Char

/-- The source's `processStreamingContent(currentState, fullContent)`.  As
in the source, `currentState` is ignored: a fresh internal state is built
and the full content is re-scanned. -/
def processStreamingContent (currentState : StreamingParserState) (fullContent : List Char) :
    StreamingParserState :=
  let st := runMachine fullContent
  { displayContent := st.displayContent
    hasPendingBlock := decide (st.stage ≠ Stage.none)
    isInUICPBlock := decide (st.stage = Stage.in_block ∨ st.stage = Stage.closing1 ∨
      st.stage = Stage.closing2 ∨ st.stage = Stage.closing3)
    completedBlocks := st.completedBlocks
    buffer := st.buffer ++ st.blockContent }

/-- The source's `createStreamingParserState()`. -/
def createStreamingParserState : StreamingParserState :=
  { displayContent := [], hasPendingBlock := false, isInUICPBlock := false,
    completedBlocks := [], buffer := [] }

/-- The source's `parseStreamingContent(fullContent)` convenience wrapper. -/
def parseStreamingContent (fullContent : List Char) : StreamingParserState :=
  processStreamingContent createStreamingParserState fullContent

/-- The fence-plus-tag sequence whose occurrence starts a block. -/
def uicpOpen : List Char := "```uicp".data

/-- The three-character closing fence. -/
def closeFence : List Char := "```".data

/-- Does `pat` occur as a contiguous subsequence of the text? -/
def hasSeq (pat : List Char) : List Char → Bool
  | [] => startsList pat []
  | c :: t => startsList pat (c :: t) || hasSeq pat t

/-- List `a` is an initial segment of list `b`. -/
def isStart {α : Type} (a b : List α) : Prop := ∃ t, a ++ t = b

/- ------------------------------------------------------------------ -/
/- Model of definitions-loader.ts                                      -/
/- ------------------------------------------------------------------ -/

/-- One entry of the module-level `definitionsCache` map: the loaded
definitions value together with the `Date.now()` timestamp at which it was
stored. -/
structure CacheEntry (α : Type) where
  data : α
  timestamp : Nat

/-- Lookup in the `definitionsCache` map (`Map.get`), the map being
modelled as an association list with unique keys. -/
def cacheGet {α : Type} (cache : List (String × CacheEntry α)) (source : String) :
    Option (CacheEntry α) :=
  match cache.find? (fun p => p.1 == source) with
  | some p => some p.2
  | none => none

/-- Store in the `definitionsCache` map (`Map.set`): overwrite the entry in
place when the key is present, append otherwise. -/
def cacheSet {α : Type} (cache : List (String × CacheEntry α)) (source : String)
    (e : CacheEntry α) : List (String × CacheEntry α) :=
  if cache.any (fun p => p.1 == source) then
    cache.map (fun p => if p.1 == source then (source, e) else p)
  else cache ++ [(source, e)]

/-- Result of one `loadDefinitionsWithCache` call: the returned definitions,
the cache state after the call, and whether the underlying
`loadDefinitions` collaborator was invoked. -/
structure CacheLoadResult (α : Type) where
  value : α
  cache : List (String × CacheEntry α)
  didLoad : Bool

/-- The source's `loadDefinitionsWithCache(source, ttl)`.  The module-level
cache and the clock are explicit (`cache`, `now`); `load` stands for the
external `loadDefinitions` collaborator; `source` is `string | Definitions`
(`Sum.inr` is the object branch, returned without caching). -/
def loadDefinitionsWithCache {α : Type} (load : String → α) (now : Nat)
    (cache : List (String × CacheEntry α)) (source : String ⊕ α) (ttl : Nat) :
    CacheLoadResult α :=
  match source with
  | Sum.inr obj => ⟨obj, cache, false⟩
  | Sum.inl src =>
    match cacheGet cache src with
    | some cached =>
      if now - cached.timestamp < ttl then ⟨cached.data, cache, false⟩
      else
        let d := load src
        ⟨d, cacheSet cache src ⟨d, now⟩, true⟩
    | none =>
      let d := load src
      ⟨d, cacheSet cache src ⟨d, now⟩, true⟩

/-- The source's `DEFAULT_CACHE_TTL` (five minutes in milliseconds). -/
def DEFAULT_CACHE_TTL : Nat := 5 * 60 * 1000

/- ------------------------------------------------------------------ -/
/- Model of loader.ts                                                  -/
/- ------------------------------------------------------------------ -/

/-- JS `typeof` kind of a module export, as tested by the fallback export
scan in `loadComponent`. -/
inductive ExportKind where
  | function
  | object
  | other
deriving DecidableEq, BEq

/-- One module export: its `typeof` kind and an opaque payload identifying
the renderable handle.  Exported bindings are modelled as truthy JS values
(faithful for function/class/object exports). -/
structure ExportVal (ν : Type) where
  kind : ExportKind
  payload : ν

/-- Property access `module[name]` on a module namespace object, modelled
as an association list of exports. -/
def moduleGet {ν : Type} (m : List (String × ExportVal ν)) (name : String) :
    Option (ExportVal ν) :=
  (m.find? (fun p => p.1 == name)).map (fun p => p.2)

/-- The source's `Object.values(module).find(exp => typeof exp === 'function'
|| typeof exp === 'object')` fallback. -/
def findRenderable {ν : Type} (m : List (String × ExportVal ν)) : Option (ExportVal ν) :=
  (m.find? (fun p => p.2.kind == ExportKind.function || p.2.kind == ExportKind.object)).map
    (fun p => p.2)

/-- Model of JS `String.prototype.startsWith` (structural, so that it
evaluates). -/
def strStartsWith (s pre : String) : Bool := startsList pre.data s.data

/-- Model of JS `String.prototype.split` with a one-character separator
(structural, so that it evaluates). -/
def splitOnChar (sep : Char) : List Char → List (List Char)
  | [] => [[]]
  | c :: cs =>
    let r := splitOnChar sep cs
    if c = sep then [] :: r
    else match r with
      | [] => [[c]]
      | seg :: rest => (c :: seg) :: rest

/-- The source's `componentPath.split('/').pop() || ''`. -/
def lastSegment (path : String) : String :=
  match (splitOnChar '/' path.data).getLast? with
  | some seg => String.mk seg
  | none => ""

/-- Character class `\w` of the regex `/\.\w+$/`. -/
def isWordChar (c : Char) : Bool := c.isAlphanum || c = '_'

/-- The source's `.replace(/\.\w+$/, '')`: strip a final dot-extension. -/
def stripDotSuffix (name : String) : String :=
  let rev := name.data.reverse
  let w := rev.takeWhile isWordChar
  match rev.drop w.length with
  | '.' :: restRev => if w.isEmpty then name else String.mk restRev.reverse
  | _ => name

/-- The source's `registerComponent(uid, component)`: store unconditionally
in the registry (a `Map`, modelled as an association list with unique
keys), overwriting any existing entry. -/
def registerComponent {ν : Type} (registry : List (String × ExportVal ν)) (uid : String)
    (component : ExportVal ν) : List (String × ExportVal ν) :=
  if registry.any (fun p => p.1 == uid) then
    registry.map (fun p => if p.1 == uid then (uid, component) else p)
  else registry ++ [(uid, component)]

/-- The source's `getComponent(uid)`: registry lookup. -/
def getComponent {ν : Type} (registry : List (String × ExportVal ν)) (uid : String) :
    Option (ExportVal ν) :=
  (registry.find? (fun p => p.1 == uid)).map (fun p => p.2)

/-- The body of the `try` block of `loadComponent` after a registry miss:
build the full import path, import the module (a rejected import is
`Except.error`), and pick the component export with the source's
`module.default || module[uid] || module[<basename>] || <fallback scan>`
chain.  `none` is the `return null` of both the failed-export case and the
catch clause. -/
def resolveComponent {ν ε : Type} (importFn : String → Except ε (List (String × ExportVal ν)))
    (uid componentPath basePath : String) : Option (ExportVal ν) :=
  let fullPath := if strStartsWith componentPath ("/") then componentPath
    else basePath ++ "/" ++ componentPath
  match importFn fullPath with
  | Except.error _ => none
  | Except.ok m =>
    match moduleGet m ("default") with
    | some c => some c
    | none =>
      match moduleGet m uid with
      | some c => some c
      | none =>
        match moduleGet m (stripDotSuffix (lastSegment componentPath)) with
        | some c => some c
        | none => findRenderable m

/-- Result of one `loadComponent` call: the returned handle (`none` is the
source's `null`), the registry state after the call, and whether on-demand
resolution was attempted. -/
structure LoadComponentResult (ν : Type) where
  result : Option (ExportVal ν)
  registry : List (String × ExportVal ν)
  attemptedResolution : Bool

/-- The source's `loadComponent(uid, componentPath, basePath)`, with the
global `componentRegistry` explicit and the dynamic import abstracted as
`importFn`.  Total: every outcome, including a rejected import, yields an
explicit result instead of an exception. -/
def loadComponent {ν ε : Type} (importFn : String → Except ε (List (String × ExportVal ν)))
    (registry : List (String × ExportVal ν)) (uid componentPath basePath : String) :
    LoadComponentResult ν :=
  match getComponent registry uid with
  | some cached => ⟨some cached, registry, false⟩
  | none =>
    match resolveComponent importFn uid componentPath basePath with
    | none => ⟨none, registry, true⟩
    | some component => ⟨some component, registerComponent registry uid component, true⟩

/- ------------------------------------------------------------------ -/
/- Helper lemmas about the streaming machine                           -/
/- ------------------------------------------------------------------ -/

lemma runFrom_append (s : InternalState) (a b : List Char) :
    runFrom s (a ++ b) = runFrom (runFrom s a) b := by
  simp [runFrom, List.foldl_append]

lemma runFrom_cons (s : InternalState) (c : Char) (cs : List Char) :
    runFrom s (c :: cs) = runFrom (step s c) cs := rfl

/-- Consuming the seven characters of the open fence-plus-tag and one
whitespace character takes the machine from `NONE` into `IN_BODY` with
empty buffers. -/
lemma run_open (s : InternalState) (w : Char) (hs : s.stage = Stage.none)
    (hw : w = '\n' ∨ w = ' ' ∨ w = '\t' ∨ w = '\r') :
    runFrom s (uicpOpen ++ [w]) =
      { s with stage := Stage.in_block, buffer := [], blockContent := [] } := by
  have hdata : uicpOpen ++ [w] =
      '\x60' :: '\x60' :: '\x60' :: 'u' :: 'i' :: 'c' :: 'p' :: [w] := rfl
  rw [hdata]
  simp only [runFrom, List.foldl_cons, List.foldl_nil]
  rcases hw with hw | hw | hw | hw <;> subst hw <;>
    simp [step, hs]

/-- While in `IN_BODY`, fence-free characters are appended verbatim to the
body buffer. -/
lemma run_body (bs : List Char) : ∀ (s : InternalState), s.stage = Stage.in_block →
    (∀ ch ∈ bs, ch ≠ '\x60') →
    runFrom s bs = { s with blockContent := s.blockContent ++ bs } := by
  induction bs with
  | nil => intro s hs _; simp [runFrom]
  | cons c cs ih =>
    intro s hs hb
    have hc : c ≠ '\x60' := hb c (List.mem_cons_self c cs)
    have hstep : step s c = { s with blockContent := s.blockContent ++ [c] } := by
      simp [step, hs, hc]
    have ihr := ih { s with blockContent := s.blockContent ++ [c] } hs
      (fun ch hch => hb ch (List.mem_cons_of_mem c hch))
    rw [runFrom_cons, hstep, ihr]
    simp

/-- Consuming the three closing fence characters from `IN_BODY` reaches
`SAW_CLOSE_3` without touching any accumulator. -/
lemma run_close (s : InternalState) (hs : s.stage = Stage.in_block) :
    runFrom s closeFence = { s with stage := Stage.closing3 } := by
  have hdata : closeFence = '\x60' :: '\x60' :: '\x60' :: [] := rfl
  rw [hdata]
  simp only [runFrom, List.foldl_cons, List.foldl_nil]
  simp [step, hs]

/-- The character consumed at `SAW_CLOSE_3`, when the body is rejected,
records the diagnostic, resets the machine, and (for a non-fence character)
goes to the display stream. -/
lemma step_closing3_inr (s : InternalState) (c : Char) (entry : LogEntry)
    (hs : s.stage = Stage.closing3) (hout : blockOutcome s.blockContent = Sum.inr entry)
    (hc : c ≠ '\x60') :
    step s c =
      { stage := Stage.none, buffer := [],
        displayContent := s.displayContent ++ [c],
        completedBlocks := s.completedBlocks, blockContent := [],
        logs := s.logs ++ [entry] } := by
  simp [step, hs, finishBlock, hout, hc]

/-- A single step either leaves the completed-block list unchanged or
appends the one block accepted by the `closing3` handler. -/
lemma step_blocks (s : InternalState) (c : Char) :
    (step s c).completedBlocks = s.completedBlocks ∨
    ∃ b, blockOutcome s.blockContent = Sum.inl b ∧
      (step s c).completedBlocks = s.completedBlocks ++ [b] := by
  cases h : s.stage
  case closing3 =>
    cases hout : blockOutcome s.blockContent with
    | inl b =>
      right
      refine ⟨b, rfl, ?_⟩
      simp only [step, h, finishBlock, hout]
      split_ifs <;> rfl
    | inr e =>
      left
      simp only [step, h, finishBlock, hout]
      split_ifs <;> rfl
  all_goals
    left
    simp only [step, h]
    split_ifs <;> rfl

/-- Blocks accepted by the `closing3` handler have truthy `uid` and `data`
members. -/
lemma blockOutcome_inl_good (content : List Char) (b : Json)
    (h : blockOutcome content = Sum.inl b) :
    truthy (jget b uidKey) = true ∧ truthy (jget b dataKey) = true := by
  unfold blockOutcome at h
  split at h
  all_goals try cases h
  split_ifs at h with hcond
  injection h with h2
  subst h2
  exact ⟨(Bool.and_eq_true _ _ |>.mp hcond).1, (Bool.and_eq_true _ _ |>.mp hcond).2⟩

/-- Along any run, the completed-block list only grows at its end. -/
lemma runFrom_blocks_isStart (cs : List Char) : ∀ s : InternalState,
    isStart s.completedBlocks (runFrom s cs).completedBlocks := by
  induction cs with
  | nil => intro s; exact ⟨[], by simp [runFrom]⟩
  | cons c cs ih =>
    intro s
    rw [runFrom_cons]
    rcases ih (step s c) with ⟨t, ht⟩
    rcases step_blocks s c with hb | ⟨b, _, hb⟩
    · rw [hb] at ht
      exact ⟨t, ht⟩
    · rw [hb] at ht
      exact ⟨[b] ++ t, by rw [← List.append_assoc]; exact ht⟩

/-- Along any run, every completed block keeps truthy `uid` and `data`
members. -/
lemma runFrom_blocks_good (cs : List Char) : ∀ s : InternalState,
    (∀ b ∈ s.completedBlocks,
      truthy (jget b uidKey) = true ∧ truthy (jget b dataKey) = true) →
    ∀ b ∈ (runFrom s cs).completedBlocks,
      truthy (jget b uidKey) = true ∧ truthy (jget b dataKey) = true := by
  induction cs with
  | nil => intro s hgood; simpa [runFrom] using hgood
  | cons c cs ih =>
    intro s hgood
    rw [runFrom_cons]
    refine ih (step s c) ?_
    rcases step_blocks s c with hb | ⟨b0, hout, hb⟩
    · rw [hb]; exact hgood
    · rw [hb]
      intro b hbmem
      rcases List.mem_append.mp hbmem with hm | hm
      · exact hgood b hm
      · rcases List.mem_singleton.mp hm with rfl
        exact blockOutcome_inl_good _ _ hout

lemma startsList_append (pat : List Char) : ∀ (xs ys : List Char),
    startsList pat xs = true → startsList pat (xs ++ ys) = true := by
  induction pat with
  | nil => intro xs ys _; rfl
  | cons p ps ih =>
    intro xs ys h
    cases xs with
    | nil => cases h
    | cons c cs =>
      simp only [startsList, Bool.and_eq_true] at h
      simp only [List.cons_append, startsList, Bool.and_eq_true]
      exact ⟨h.1, ih cs ys h.2⟩

lemma startsList_refl (pat : List Char) : ∀ (ys : List Char),
    startsList pat (pat ++ ys) = true := by
  induction pat with
  | nil => intro ys; rfl
  | cons p ps ih =>
    intro ys
    simp only [List.cons_append, startsList, Bool.and_eq_true]
    exact ⟨by simp, ih ys⟩

lemma hasSeq_nilPat : ∀ (ys : List Char), hasSeq [] ys = true
  | [] => rfl
  | _ :: _ => rfl

lemma hasSeq_extend (pat : List Char) : ∀ (xs ys : List Char),
    hasSeq pat xs = true → hasSeq pat (xs ++ ys) = true := by
  intro xs
  induction xs with
  | nil =>
    intro ys h
    cases pat with
    | nil => exact hasSeq_nilPat ys
    | cons p ps => cases h
  | cons c cs ih =>
    intro ys h
    simp only [hasSeq, Bool.or_eq_true] at h
    simp only [List.cons_append, hasSeq, Bool.or_eq_true]
    rcases h with h | h
    · exact Or.inl (startsList_append pat _ ys h)
    · exact Or.inr (ih ys h)

lemma hasSeq_contains (pat : List Char) : ∀ (a b : List Char),
    hasSeq pat (a ++ (pat ++ b)) = true := by
  intro a
  induction a with
  | nil =>
    intro b
    cases pat with
    | nil => exact hasSeq_nilPat b
    | cons p ps =>
      simp only [List.nil_append, hasSeq, Bool.or_eq_true]
      exact Or.inl (startsList_refl (p :: ps) b)
  | cons c cs ih =>
    intro b
    simp only [List.cons_append, hasSeq, Bool.or_eq_true]
    exact Or.inr (ih b)

lemma hasSeq_false_of_append (pat xs ys : List Char)
    (h : hasSeq pat (xs ++ ys) = false) : hasSeq pat xs = false := by
  cases hx : hasSeq pat xs with
  | false => rfl
  | true => rw [hasSeq_extend pat xs ys hx] at h; cases h

/-- Shape of the pending buffer in each block-opening stage: it is exactly
the raw text tentatively withheld from the display stream. -/
def OpenShape : Stage → List Char → Prop
  | Stage.none, buf => buf = []
  | Stage.backtick1, buf => buf = ['\x60']
  | Stage.backtick2, buf => buf = ['\x60', '\x60']
  | Stage.backtick3, buf => ∃ k, 3 ≤ k ∧ buf = List.replicate k '\x60'
  | Stage.u, buf => ∃ k, 3 ≤ k ∧ buf = List.replicate k '\x60' ++ ['u']
  | Stage.ui, buf => ∃ k, 3 ≤ k ∧ buf = List.replicate k '\x60' ++ ['u', 'i']
  | Stage.uic, buf => ∃ k, 3 ≤ k ∧ buf = List.replicate k '\x60' ++ ['u', 'i', 'c']
  | Stage.uicp, buf => ∃ k, 3 ≤ k ∧ buf = List.replicate k '\x60' ++ ['u', 'i', 'c', 'p']
  | _, _ => False

/-- On text with no occurrence of the fence-plus-tag sequence, the machine
stays in the opening stages, completes no block, and withholds exactly the
pending buffer from the display stream. -/
lemma noFence_inv (text : List Char) (hno : hasSeq uicpOpen text = false) :
    OpenShape (runMachine text).stage (runMachine text).buffer ∧
    (runMachine text).completedBlocks = [] ∧
    (runMachine text).blockContent = [] ∧
    (runMachine text).displayContent ++ (runMachine text).buffer = text := by
  induction text using List.reverseRecOn with
  | nil => exact ⟨rfl, rfl, rfl, rfl⟩
  | append_singleton xs x ih =>
    have hxs : hasSeq uicpOpen xs = false := hasSeq_false_of_append _ xs [x] hno
    obtain ⟨hshape, hblocks, hbc, hdisp⟩ := ih hxs
    have hrun : runMachine (xs ++ [x]) = step (runMachine xs) x := by
      rw [runMachine, runFrom_append]; rfl
    set s := runMachine xs with hs
    rw [hrun]
    cases hst : s.stage
    case in_block => rw [hst] at hshape; cases hshape
    case closing1 => rw [hst] at hshape; cases hshape
    case closing2 => rw [hst] at hshape; cases hshape
    case closing3 => rw [hst] at hshape; cases hshape
    case none =>
      rw [hst] at hshape
      have hbuf : s.buffer = [] := hshape
      have hd2 : s.displayContent = xs := by
        rw [hbuf, List.append_nil] at hdisp; exact hdisp
      by_cases hx : x = '\x60'
      · subst hx
        have hstep : step s '\x60' =
            { s with stage := Stage.backtick1, buffer := ['\x60'] } := by
          simp [step, hst]
        rw [hstep]
        exact ⟨rfl, hblocks, hbc, by rw [hd2]⟩
      · have hstep : step s x =
            { s with displayContent := s.displayContent ++ [x] } := by
          simp [step, hst, hx]
        rw [hstep]
        refine ⟨?_, hblocks, hbc, ?_⟩
        · show OpenShape s.stage s.buffer
          rw [hst]; exact hshape
        · show s.displayContent ++ [x] ++ s.buffer = xs ++ [x]
          rw [hbuf, List.append_nil, hd2]
    case backtick1 =>
      rw [hst] at hshape
      have hbuf : s.buffer = ['\x60'] := hshape
      by_cases hx : x = '\x60'
      · subst hx
        have hstep : step s '\x60' =
            { s with stage := Stage.backtick2, buffer := s.buffer ++ ['\x60'] } := by
          simp [step, hst]
        rw [hstep]
        refine ⟨?_, hblocks, hbc, ?_⟩
        · show s.buffer ++ ['\x60'] = ['\x60', '\x60']
          simp [hbuf]
        · show s.displayContent ++ (s.buffer ++ ['\x60']) = xs ++ ['\x60']
          rw [← List.append_assoc, hdisp]
      · have hstep : step s x =
            { s with displayContent := s.displayContent ++ s.buffer ++ [x],
                     buffer := [], stage := Stage.none } := by
          simp [step, hst, hx]
        rw [hstep]
        refine ⟨rfl, hblocks, hbc, ?_⟩
        show s.displayContent ++ s.buffer ++ [x] ++ [] = xs ++ [x]
        rw [List.append_nil, hdisp]
    case backtick2 =>
      rw [hst] at hshape
      have hbuf : s.buffer = ['\x60', '\x60'] := hshape
      by_cases hx : x = '\x60'
      · subst hx
        have hstep : step s '\x60' =
            { s with stage := Stage.backtick3, buffer := s.buffer ++ ['\x60'] } := by
          simp [step, hst]
        rw [hstep]
        refine ⟨?_, hblocks, hbc, ?_⟩
        · refine ⟨3, le_refl 3, ?_⟩
          show s.buffer ++ ['\x60'] = List.replicate 3 '\x60'
          rw [hbuf]
          rfl

        · show s.displayContent ++ (s.buffer ++ ['\x60']) = xs ++ ['\x60']
          rw [← List.append_assoc, hdisp]
      · have hstep : step s x =
            { s with displayContent := s.displayContent ++ s.buffer ++ [x],
                     buffer := [], stage := Stage.none } := by
          simp [step, hst, hx]
        rw [hstep]
        refine ⟨rfl, hblocks, hbc, ?_⟩
        show s.displayContent ++ s.buffer ++ [x] ++ [] = xs ++ [x]
        rw [List.append_nil, hdisp]
    case backtick3 =>
      rw [hst] at hshape
      obtain ⟨k, hk3, hbuf⟩ := hshape
      by_cases hxu : x = 'u'
      · subst hxu
        have hstep : step s 'u' =
            { s with stage := Stage.u, buffer := s.buffer ++ ['u'] } := by
          simp [step, hst]
        rw [hstep]
        refine ⟨?_, hblocks, hbc, ?_⟩
        · exact ⟨k, hk3, by rw [hbuf]⟩
        · show s.displayContent ++ (s.buffer ++ ['u']) = xs ++ ['u']
          rw [← List.append_assoc, hdisp]
      · by_cases hx : x = '\x60'
        · subst hx
          have hstep : step s '\x60' =
              { s with stage := Stage.backtick3, buffer := s.buffer ++ ['\x60'] } := by
            simp [step, hst]
          rw [hstep]
          refine ⟨?_, hblocks, hbc, ?_⟩
          · refine ⟨k + 1, Nat.le_succ_of_le hk3, ?_⟩
            show s.buffer ++ ['\x60'] = List.replicate (k + 1) '\x60'
            rw [hbuf, List.replicate_succ']
          · show s.displayContent ++ (s.buffer ++ ['\x60']) = xs ++ ['\x60']
            rw [← List.append_assoc, hdisp]
        · have hstep : step s x =
              { s with displayContent := s.displayContent ++ s.buffer ++ [x],
                       buffer := [], stage := Stage.none } := by
            simp [step, hst, hxu, hx]
          rw [hstep]
          refine ⟨rfl, hblocks, hbc, ?_⟩
          show s.displayContent ++ s.buffer ++ [x] ++ [] = xs ++ [x]
          rw [List.append_nil, hdisp]
    case u =>
      rw [hst] at hshape
      obtain ⟨k, hk3, hbuf⟩ := hshape
      by_cases hx : x = 'i'
      · subst hx
        have hstep : step s 'i' =
            { s with stage := Stage.ui, buffer := s.buffer ++ ['i'] } := by
          simp [step, hst]
        rw [hstep]
        refine ⟨?_, hblocks, hbc, ?_⟩
        · refine ⟨k, hk3, ?_⟩
          show s.buffer ++ ['i'] = List.replicate k '\x60' ++ ['u', 'i']
          rw [hbuf]
          simp
        · show s.displayContent ++ (s.buffer ++ ['i']) = xs ++ ['i']
          rw [← List.append_assoc, hdisp]
      · have hstep : step s x =
            { s with displayContent := s.displayContent ++ s.buffer ++ [x],
                     buffer := [], stage := Stage.none } := by
          simp [step, hst, hx]
        rw [hstep]
        refine ⟨rfl, hblocks, hbc, ?_⟩
        show s.displayContent ++ s.buffer ++ [x] ++ [] = xs ++ [x]
        rw [List.append_nil, hdisp]
    case ui =>
      rw [hst] at hshape
      obtain ⟨k, hk3, hbuf⟩ := hshape
      by_cases hx : x = 'c'
      · subst hx
        have hstep : step s 'c' =
            { s with stage := Stage.uic, buffer := s.buffer ++ ['c'] } := by
          simp [step, hst]
        rw [hstep]
        refine ⟨?_, hblocks, hbc, ?_⟩
        · refine ⟨k, hk3, ?_⟩
          show s.buffer ++ ['c'] = List.replicate k '\x60' ++ ['u', 'i', 'c']
          rw [hbuf]
          simp
        · show s.displayContent ++ (s.buffer ++ ['c']) = xs ++ ['c']
          rw [← List.append_assoc, hdisp]
      · have hstep : step s x =
            { s with displayContent := s.displayContent ++ s.buffer ++ [x],
                     buffer := [], stage := Stage.none } := by
          simp [step, hst, hx]
        rw [hstep]
        refine ⟨rfl, hblocks, hbc, ?_⟩
        show s.displayContent ++ s.buffer ++ [x] ++ [] = xs ++ [x]
        rw [List.append_nil, hdisp]
    case uic =>
      rw [hst] at hshape
      obtain ⟨k, hk3, hbuf⟩ := hshape
      by_cases hx : x = 'p'
      · subst hx
        have hstep : step s 'p' =
            { s with stage := Stage.uicp, buffer := s.buffer ++ ['p'] } := by
          simp [step, hst]
        rw [hstep]
        refine ⟨?_, hblocks, hbc, ?_⟩
        · refine ⟨k, hk3, ?_⟩
          show s.buffer ++ ['p'] = List.replicate k '\x60' ++ ['u', 'i', 'c', 'p']
          rw [hbuf]
          simp
        · show s.displayContent ++ (s.buffer ++ ['p']) = xs ++ ['p']
          rw [← List.append_assoc, hdisp]
      · have hstep : step s x =
            { s with displayContent := s.displayContent ++ s.buffer ++ [x],
                     buffer := [], stage := Stage.none } := by
          simp [step, hst, hx]
        rw [hstep]
        refine ⟨rfl, hblocks, hbc, ?_⟩
        show s.displayContent ++ s.buffer ++ [x] ++ [] = xs ++ [x]
        rw [List.append_nil, hdisp]
    case uicp =>
      rw [hst] at hshape
      obtain ⟨k, hk3, hbuf⟩ := hshape
      exfalso
      obtain ⟨m, rfl⟩ : ∃ m, k = m + 3 := ⟨k - 3, by omega⟩
      have hxs2 : xs = (s.displayContent ++ List.replicate m '\x60') ++ (uicpOpen ++ []) := by
        rw [← hdisp, hbuf]
        have hrep : List.replicate (m + 3) '\x60' =
            List.replicate m '\x60' ++ List.replicate 3 '\x60' := by
          rw [← List.replicate_add]
        rw [hrep]
        simp [uicpOpen]
      have hcontra : hasSeq uicpOpen xs = true := by
        rw [hxs2]; exact hasSeq_contains uicpOpen _ []
      rw [hcontra] at hxs
      cases hxs

/-- An empty buffer in an opening-stage shape forces the `NONE` stage. -/
lemma openShape_nil (st : Stage) (hsh : OpenShape st []) : st = Stage.none := by
  cases st
  case none => rfl
  case backtick1 => exact absurd hsh (by simp [OpenShape])
  case backtick2 => exact absurd hsh (by simp [OpenShape])
  case backtick3 =>
    obtain ⟨k, hk3, h⟩ := hsh
    have := (List.replicate_eq_nil_iff _).mp h.symm
    omega
  case u =>
    obtain ⟨k, hk3, h⟩ := hsh
    rcases List.append_eq_nil.mp h.symm with ⟨-, h2⟩
    cases h2
  case ui =>
    obtain ⟨k, hk3, h⟩ := hsh
    rcases List.append_eq_nil.mp h.symm with ⟨-, h2⟩
    cases h2
  case uic =>
    obtain ⟨k, hk3, h⟩ := hsh
    rcases List.append_eq_nil.mp h.symm with ⟨-, h2⟩
    cases h2
  case uicp =>
    obtain ⟨k, hk3, h⟩ := hsh
    rcases List.append_eq_nil.mp h.symm with ⟨-, h2⟩
    cases h2
  case in_block => cases hsh
  case closing1 => cases hsh
  case closing2 => cases hsh
  case closing3 => cases hsh

/-- Overwriting an association-list entry makes the overwritten pair the
lookup result. -/
lemma assoc_find_overwrite {β : Type} (uid : String) (c : β) :
    ∀ (r : List (String × β)), r.any (fun p => p.1 == uid) = true →
    (r.map (fun p => if p.1 == uid then (uid, c) else p)).find? (fun p => p.1 == uid)
      = some (uid, c) := by
  intro r
  induction r with
  | nil => intro h; cases h
  | cons p ps ih =>
    intro h
    by_cases hp : p.1 == uid
    · simp [List.find?, hp]
    · simp only [List.any_cons, Bool.or_eq_true] at h
      have h2 : ps.any (fun p => p.1 == uid) = true := by
        rcases h with h | h
        · exact absurd h hp
        · exact h
      simp only [List.map_cons, if_neg hp, List.find?]
      rw [Bool.of_not_eq_true hp]
      exact ih h2

/-- Appending a fresh association-list entry makes it the lookup result. -/
lemma assoc_find_append {β : Type} (uid : String) (c : β) :
    ∀ (r : List (String × β)), r.any (fun p => p.1 == uid) = false →
    (r ++ [(uid, c)]).find? (fun p => p.1 == uid) = some (uid, c) := by
  intro r
  induction r with
  | nil => intro _; simp [List.find?]
  | cons p ps ih =>
    intro h
    simp only [List.any_cons, Bool.or_eq_false_iff] at h
    simp only [List.cons_append, List.find?]
    rw [h.1]
    exact ih h.2

/-- A `register` immediately followed by a lookup of the same id hits. -/
lemma getComponent_registerComponent {ν : Type} (registry : List (String × ExportVal ν))
    (uid : String) (c : ExportVal ν) :
    getComponent (registerComponent registry uid c) uid = some c := by
  unfold getComponent registerComponent
  by_cases h : registry.any (fun p => p.1 == uid)
  · rw [if_pos h, assoc_find_overwrite uid c registry h]
    rfl
  · rw [if_neg h, assoc_find_append uid c registry (Bool.of_not_eq_true h)]
    rfl

/-- A `cacheSet` immediately followed by a lookup of the same source hits. -/
lemma cacheGet_cacheSet {α : Type} (cache : List (String × CacheEntry α)) (src : String)
    (e : CacheEntry α) : cacheGet (cacheSet cache src e) src = some e := by
  unfold cacheGet cacheSet
  by_cases h : cache.any (fun p => p.1 == src)
  · rw [if_pos h, assoc_find_overwrite src e cache h]
  · rw [if_neg h, assoc_find_append src e cache (Bool.of_not_eq_true h)]

/-- Heads of a false `hasSeq` are discardable. -/
lemma hasSeq_tail_false (pat : List Char) (c : Char) (t : List Char)
    (h : hasSeq pat (c :: t) = false) : hasSeq pat t = false := by
  have h2 := h
  simp only [hasSeq, Bool.or_eq_false_iff] at h2
  exact h2.2

/-- Number of tentatively consumed closing-fence characters encoded in the
in-body stages. -/
def stagePending : Stage → Nat
  | Stage.closing1 => 1
  | Stage.closing2 => 2
  | _ => 0

/-- Two internal states with equal fields are equal. -/
lemma internalState_ext (a b : InternalState) (h1 : a.stage = b.stage)
    (h2 : a.buffer = b.buffer) (h3 : a.displayContent = b.displayContent)
    (h4 : a.completedBlocks = b.completedBlocks) (h5 : a.blockContent = b.blockContent)
    (h6 : a.logs = b.logs) : a = b := by
  cases a
  cases b
  simp_all

/-- While scanning a body containing no closing-fence sequence (counting
the tentatively consumed fence characters of the current stage), the
machine stays in the in-body stages, the body buffer plus the tentative
fence characters record exactly the consumed characters, and every other
field is untouched.  This covers the `SAW_CLOSE` unwind cases, where one
or two literal fence characters are appended back into the body. -/
lemma run_body_track (bs : List Char) : ∀ (s : InternalState),
    (s.stage = Stage.in_block ∨ s.stage = Stage.closing1 ∨ s.stage = Stage.closing2) →
    hasSeq closeFence (List.replicate (stagePending s.stage) '\x60' ++ bs) = false →
    ((runFrom s bs).stage = Stage.in_block ∨ (runFrom s bs).stage = Stage.closing1 ∨
        (runFrom s bs).stage = Stage.closing2) ∧
    (runFrom s bs).blockContent ++
        List.replicate (stagePending (runFrom s bs).stage) '\x60' =
      s.blockContent ++ List.replicate (stagePending s.stage) '\x60' ++ bs ∧
    (runFrom s bs).buffer = s.buffer ∧
    (runFrom s bs).displayContent = s.displayContent ∧
    (runFrom s bs).completedBlocks = s.completedBlocks ∧
    (runFrom s bs).logs = s.logs := by
  induction bs with
  | nil =>
    intro s hst _
    exact ⟨hst, by simp [runFrom], rfl, rfl, rfl, rfl⟩
  | cons c cs ih =>
    intro s hst hinv
    rcases hst with h | h | h
    · by_cases hc : c = '\x60'
      · subst hc
        have hstep : step s '\x60' = { s with stage := Stage.closing1 } := by
          simp [step, h]
        have hinv2 : hasSeq closeFence
            (List.replicate (stagePending Stage.closing1) '\x60' ++ cs) = false := by
          simpa [stagePending, h] using hinv
        obtain ⟨g1, g2, g3, g4, g5, g6⟩ :=
          ih { s with stage := Stage.closing1 } (Or.inr (Or.inl rfl)) hinv2
        rw [runFrom_cons, hstep]
        refine ⟨g1, ?_, g3, g4, g5, g6⟩
        rw [g2]
        simp [stagePending, h]
      · have hstep : step s c =
            { s with stage := Stage.in_block, blockContent := s.blockContent ++ [c] } := by
          simp [step, h, hc]
        have hinv2 : hasSeq closeFence
            (List.replicate (stagePending Stage.in_block) '\x60' ++ cs) = false := by
          refine hasSeq_tail_false closeFence c cs ?_
          simpa [stagePending, h] using hinv
        obtain ⟨g1, g2, g3, g4, g5, g6⟩ :=
          ih { s with stage := Stage.in_block, blockContent := s.blockContent ++ [c] }
            (Or.inl rfl) hinv2
        rw [runFrom_cons, hstep]
        refine ⟨g1, ?_, g3, g4, g5, g6⟩
        rw [g2]
        simp [stagePending, h]
    · by_cases hc : c = '\x60'
      · subst hc
        have hstep : step s '\x60' = { s with stage := Stage.closing2 } := by
          simp [step, h]
        have hinv2 : hasSeq closeFence
            (List.replicate (stagePending Stage.closing2) '\x60' ++ cs) = false := by
          have heq : List.replicate (stagePending Stage.closing2) '\x60' ++ cs =
              List.replicate (stagePending s.stage) '\x60' ++ '\x60' :: cs := by
            rw [h]; rfl
          rw [heq]
          exact hinv
        obtain ⟨g1, g2, g3, g4, g5, g6⟩ :=
          ih { s with stage := Stage.closing2 } (Or.inr (Or.inr rfl)) hinv2
        rw [runFrom_cons, hstep]
        refine ⟨g1, ?_, g3, g4, g5, g6⟩
        rw [g2]
        have heq2 : s.blockContent ++ List.replicate (stagePending Stage.closing2) '\x60' ++ cs
            = s.blockContent ++ List.replicate (stagePending s.stage) '\x60' ++ '\x60' :: cs := by
          rw [h]
          simp [stagePending]
        exact heq2
      · have hstep : step s c =
            { s with stage := Stage.in_block,
                     blockContent := s.blockContent ++ ['\x60', c] } := by
          simp [step, h, hc]
        have hinv2 : hasSeq closeFence
            (List.replicate (stagePending Stage.in_block) '\x60' ++ cs) = false := by
          refine hasSeq_tail_false closeFence c cs ?_
          refine hasSeq_tail_false closeFence '\x60' (c :: cs) ?_
          simpa [stagePending, h] using hinv
        obtain ⟨g1, g2, g3, g4, g5, g6⟩ :=
          ih { s with stage := Stage.in_block, blockContent := s.blockContent ++ ['\x60', c] }
            (Or.inl rfl) hinv2
        rw [runFrom_cons, hstep]
        refine ⟨g1, ?_, g3, g4, g5, g6⟩
        rw [g2]
        simp [stagePending, h]
    · by_cases hc : c = '\x60'
      · exfalso
        subst hc
        have hform : List.replicate (stagePending s.stage) '\x60' ++ '\x60' :: cs =
            [] ++ (closeFence ++ cs) := by
          rw [h]; rfl
        rw [hform] at hinv
        rw [hasSeq_contains closeFence [] cs] at hinv
        cases hinv
      · have hstep : step s c =
            { s with stage := Stage.in_block,
                     blockContent := s.blockContent ++ ['\x60', '\x60', c] } := by
          simp [step, h, hc]
        have hinv2 : hasSeq closeFence
            (List.replicate (stagePending Stage.in_block) '\x60' ++ cs) = false := by
          refine hasSeq_tail_false closeFence c cs ?_
          refine hasSeq_tail_false closeFence '\x60' (c :: cs) ?_
          refine hasSeq_tail_false closeFence '\x60' ('\x60' :: c :: cs) ?_
          simpa [stagePending, h] using hinv
        obtain ⟨g1, g2, g3, g4, g5, g6⟩ :=
          ih { s with stage := Stage.in_block,
                      blockContent := s.blockContent ++ ['\x60', '\x60', c] }
            (Or.inl rfl) hinv2
        rw [runFrom_cons, hstep]
        refine ⟨g1, ?_, g3, g4, g5, g6⟩
        rw [g2]
        simp [stagePending, h]

/-- A body containing no closing-fence sequence and not ending in a fence
character is appended verbatim to the body buffer, leaving the machine in
`IN_BODY` — the general form of body scanning, allowing interior fence
characters that the `SAW_CLOSE` stages unwind. -/
lemma run_body_keep (bs : List Char) (s : InternalState) (hs : s.stage = Stage.in_block)
    (hno : hasSeq closeFence bs = false) (hlast : bs.getLast? ≠ some '\x60') :
    runFrom s bs = { s with blockContent := s.blockContent ++ bs } := by
  cases hbs : bs with
  | nil =>
    simp [runFrom]
  | cons b0 btl =>
    rw [← hbs]
    obtain ⟨g1, g2, g3, g4, g5, g6⟩ := run_body_track bs s (Or.inl hs)
      (by simpa [stagePending, hs] using hno)
    have hbsne : bs ≠ [] := by rw [hbs]; exact List.cons_ne_nil b0 btl
    have hrhs : (s.blockContent ++ List.replicate (stagePending s.stage) '\x60' ++ bs).getLast?
        = bs.getLast? := List.getLast?_append_of_ne_nil _ hbsne
    have hstage : (runFrom s bs).stage = Stage.in_block := by
      rcases g1 with h1 | h1 | h1
      · exact h1
      · exfalso
        apply hlast
        rw [← hrhs, ← g2, h1]
        show ((runFrom s bs).blockContent ++ ['\x60']).getLast? = some '\x60'
        exact List.getLast?_concat _
      · exfalso
        apply hlast
        rw [← hrhs, ← g2, h1]
        show ((runFrom s bs).blockContent ++ ['\x60', '\x60']).getLast? = some '\x60'
        rw [show (runFrom s bs).blockContent ++ ['\x60', '\x60'] =
          ((runFrom s bs).blockContent ++ ['\x60']) ++ ['\x60'] by simp]
        exact List.getLast?_concat _
    have hbc : (runFrom s bs).blockContent = s.blockContent ++ bs := by
      have g2' := g2
      rw [hstage, hs] at g2'
      simpa [stagePending] using g2'
    exact internalState_ext _ _ (by rw [hstage, hs]) g3 g4 g5 hbc g6

/-- A single step either leaves blocks and display alone apart from
appending display text, or appends exactly one block together with its
ordinal placeholder in the display stream. -/
lemma step_blocks_display (s : InternalState) (c : Char) :
    ((step s c).completedBlocks = s.completedBlocks ∧
      ∃ t, (step s c).displayContent = s.displayContent ++ t) ∨
    (∃ b t, (step s c).completedBlocks = s.completedBlocks ++ [b] ∧
      (step s c).displayContent =
        s.displayContent ++ placeholderFor s.completedBlocks.length ++ t) := by
  cases h : s.stage
  case closing3 =>
    cases hout : blockOutcome s.blockContent with
    | inl b =>
      right
      simp only [step, h, finishBlock, hout]
      split_ifs with h1
      · exact ⟨b, [c], rfl, rfl⟩
      · exact ⟨b, [], rfl, (List.append_nil _).symm⟩
    | inr e =>
      left
      simp only [step, h, finishBlock, hout]
      split_ifs with h1
      · exact ⟨rfl, [c], rfl⟩
      · exact ⟨rfl, [], (List.append_nil _).symm⟩
  all_goals
    left
    simp only [step, h]
    split_ifs <;>
      first
      | exact ⟨rfl, [], (List.append_nil _).symm⟩
      | exact ⟨rfl, [c], rfl⟩
      | exact ⟨rfl, s.buffer ++ [c], List.append_assoc _ _ _⟩

/-- Along any run, every completed block's ordinal placeholder occurs in
the display stream. -/
lemma placeholder_inv (cs : List Char) : ∀ (s : InternalState),
    (∀ i, i < s.completedBlocks.length →
      hasSeq (placeholderFor i) s.displayContent = true) →
    ∀ i, i < (runFrom s cs).completedBlocks.length →
      hasSeq (placeholderFor i) (runFrom s cs).displayContent = true := by
  induction cs with
  | nil => intro s hgood; simpa [runFrom] using hgood
  | cons c cs ih =>
    intro s hgood
    rw [runFrom_cons]
    refine ih (step s c) ?_
    rcases step_blocks_display s c with ⟨hb, t, hd⟩ | ⟨b, t, hb, hd⟩
    · intro i hi
      rw [hb] at hi
      rw [hd]
      exact hasSeq_extend _ _ t (hgood i hi)
    · intro i hi
      rw [hb, List.length_append, List.length_singleton] at hi
      rw [hd]
      rcases Nat.lt_succ_iff_lt_or_eq.mp hi with hi | hi
      · rw [List.append_assoc]
        exact hasSeq_extend _ _ _ (hgood i hi)
      · subst hi
        rw [List.append_assoc]
        exact hasSeq_contains _ _ _

/- ------------------------------------------------------------------ -/
/- Concrete inputs used by the claim theorems                          -/
/- ------------------------------------------------------------------ -/

/-- A well-formed block body with truthy `uid` and `data`. -/
def validBody : List Char := "\x7b\"uid\":\"a\",\"data\":\x7b\x7d\x7d".data

/-- The block `validBody` parses to. -/
def validBlock : Json := Json.obj [(uidKey, Json.str ("a".data)), (dataKey, Json.obj [])]

/-- A streamed text that ends exactly at the third closing fence character
of a well-formed block. -/
def fenceEndInput : List Char := ("```uicp ".data) ++ validBody ++ closeFence

/-- The same block followed by a fourth fence character and one more
character. -/
def extraBacktickInput : List Char := fenceEndInput ++ ['\x60', 'X']

/-- The single-block scenario input of the claim. -/
def helloInput : List Char :=
  "Hello ```uicp\n\x7b\"uid\":\"X\",\"data\":\x7b\"a\":1\x7d\x7d\n``` world".data

/-- The block extracted from `helloInput`. -/
def helloBlock : Json :=
  Json.obj [(uidKey, Json.str ("X".data)), (dataKey, Json.obj [("a".data, Json.num 1)])]

/-- A two-block input exercising emission order. -/
def twoBlockInput : List Char :=
  ("A ```uicp\n\x7b\"uid\":\"X\",\"data\":\x7b\"a\":1\x7d\x7d\n``` B " ++
   "```uicp\n\x7b\"uid\":\"Y\",\"data\":\x7b\"b\":2\x7d\x7d\n``` C").data

/-- The second block of `twoBlockInput`. -/
def secondBlock : Json :=
  Json.obj [(uidKey, Json.str ("Y".data)), (dataKey, Json.obj [("b".data, Json.num 2)])]

/- ------------------------------------------------------------------ -/
/- Claim theorems                                                      -/
/- ------------------------------------------------------------------ -/

/-- C1: the claim states that a block is complete as soon as the third
closing fence character is consumed.  The code disagrees: on a text that
ends exactly at the third closing backtick the machine stops in
`closing3` without having run the completion handler, so `completedBlocks`
is empty and the block stays pending; appending any further character
completes it.  This theorem evaluates the code at that failing input:
the body is accepted by the block check, yet the run ending at the third
fence character completes nothing, while the run extended by one newline
completes the block. -/
theorem c1_block_not_completed_at_third_fence_char :
    blockOutcome validBody = Sum.inl validBlock ∧
    (parseStreamingContent fenceEndInput).completedBlocks = [] ∧
    (parseStreamingContent fenceEndInput).hasPendingBlock = true ∧
    (parseStreamingContent fenceEndInput).isInUICPBlock = true ∧
    (parseStreamingContent (fenceEndInput ++ ['\n'])).completedBlocks = [validBlock] ∧
    (parseStreamingContent (fenceEndInput ++ ['\n'])).displayContent =
      placeholderFor 0 ++ ['\n'] :=
  ⟨rfl, rfl, rfl, rfl, rfl, rfl⟩

/-- C2: the claim states that no input character is ever silently dropped:
each character reaches `displayContent`, belongs to a completed block's
fence/tag/body, or stays in the pending buffer.  The code drops the
backtick that immediately follows a completed closing fence: the re-dispatch
branch for it in the `closing3` case is nested inside `if (char !== '\x60')`
and unreachable.  This theorem evaluates the code at the failing input
`extraBacktickInput`: of its seven backticks only six belong to the
completed block's fences, yet the display text, the pending buffer and the
final state contain no backtick at all. -/
theorem c2_backtick_after_close_dropped :
    (parseStreamingContent extraBacktickInput).displayContent = ("__UICP_BLOCK_0__X".data) ∧
    (parseStreamingContent extraBacktickInput).buffer = [] ∧
    (parseStreamingContent extraBacktickInput).hasPendingBlock = false ∧
    (parseStreamingContent extraBacktickInput).completedBlocks = [validBlock] ∧
    extraBacktickInput.count '\x60' = 7 ∧
    (parseStreamingContent extraBacktickInput).displayContent.count '\x60' = 0 :=
  ⟨rfl, rfl, rfl, rfl, rfl, rfl⟩

/-- C3 (counterexample): the claim asserts that on any text with no
fence-tagged sequence the display text equals the input and nothing is
pending.  The single-character text made of one backtick contains no
fence-tagged sequence, yet the extractor withholds it in the pending
buffer: `hasPendingBlock` is true and the display text is not the input. -/
theorem c3_counterexample :
    hasSeq uicpOpen ['\x60'] = false ∧
    (parseStreamingContent ['\x60']).hasPendingBlock = true ∧
    (parseStreamingContent ['\x60']).displayContent ≠ ['\x60'] :=
  ⟨rfl, rfl, by decide⟩

/-- C3 (amended): for every input text with no occurrence of the
fence-tagged sequence, `completedBlocks` is empty and the display text
together with the returned pending buffer reconstitutes the input exactly;
`hasPendingBlock` is false precisely when that pending buffer is empty
(that is, when the text does not end in an unresolved partial fence/tag
prefix), in which case the display text equals the input. -/
theorem c3_no_fence_no_blocks (s₀ : StreamingParserState) (text : List Char)
    (hno : hasSeq uicpOpen text = false) :
    (processStreamingContent s₀ text).completedBlocks = [] ∧
    (processStreamingContent s₀ text).displayContent ++
      (processStreamingContent s₀ text).buffer = text ∧
    ((processStreamingContent s₀ text).hasPendingBlock = false ↔
      (processStreamingContent s₀ text).buffer = []) := by
  obtain ⟨hshape, hblocks, hbc, hdisp⟩ := noFence_inv text hno
  refine ⟨hblocks, ?_, ?_⟩
  · show (runMachine text).displayContent ++
      ((runMachine text).buffer ++ (runMachine text).blockContent) = text
    rw [hbc, List.append_nil]
    exact hdisp
  · show (decide ((runMachine text).stage ≠ Stage.none) = false) ↔
      ((runMachine text).buffer ++ (runMachine text).blockContent = [])
    rw [hbc, List.append_nil]
    constructor
    · intro h
      have hstage : (runMachine text).stage = Stage.none :=
        not_not.mp (of_decide_eq_false h)
      rw [hstage] at hshape
      exact hshape
    · intro hbufnil
      apply decide_eq_false
      intro hne
      exact hne (openShape_nil _ (hbufnil ▸ hshape))

/-- C3 (witness): the amended statement at the concrete no-fence text
`"ab"` — no block, display equals input, nothing pending. -/
theorem c3_no_fence_no_blocks_witness :
    hasSeq uicpOpen ("ab".data) = false ∧
    (parseStreamingContent ("ab".data)).completedBlocks = [] ∧
    (parseStreamingContent ("ab".data)).displayContent ++
      (parseStreamingContent ("ab".data)).buffer = ("ab".data) ∧
    ((parseStreamingContent ("ab".data)).hasPendingBlock = false ↔
      (parseStreamingContent ("ab".data)).buffer = []) :=
  ⟨rfl, c3_no_fence_no_blocks createStreamingParserState ("ab".data) rfl⟩

/-- C4: re-running the extractor on any prefix of a text that ends
strictly within a block's body (any body prefix containing no closing-fence
sequence, after the confirmed opening — interior fence characters that the
`SAW_CLOSE` stages unwind are allowed) yields `hasPendingBlock = true` and
no entry for that block in `completedBlocks`; and in general
`hasPendingBlock` is true exactly when the machine ends in a state other
than `NONE`. -/
theorem c4_pending_within_body :
    (∀ (s₀ : StreamingParserState) (pre b1 : List Char) (w : Char),
      (runMachine pre).stage = Stage.none →
      (w = '\n' ∨ w = ' ' ∨ w = '\t' ∨ w = '\r') →
      hasSeq closeFence b1 = false →
      (processStreamingContent s₀ (pre ++ (uicpOpen ++ [w]) ++ b1)).hasPendingBlock = true ∧
      (processStreamingContent s₀ (pre ++ (uicpOpen ++ [w]) ++ b1)).completedBlocks =
        (runMachine pre).completedBlocks) ∧
    (∀ (s₀ : StreamingParserState) (text : List Char),
      (processStreamingContent s₀ text).hasPendingBlock =
        decide ((runMachine text).stage ≠ Stage.none)) := by
  constructor
  · intro s₀ pre b1 w hpre hw hb1
    have hr : runMachine (pre ++ (uicpOpen ++ [w]) ++ b1)
        = runFrom (runFrom (runMachine pre) (uicpOpen ++ [w])) b1 := by
      simp only [runMachine, runFrom_append]
    rw [run_open _ _ hpre hw] at hr
    obtain ⟨g1, g2, g3, g4, g5, g6⟩ := run_body_track b1
      { runMachine pre with stage := Stage.in_block, buffer := [], blockContent := [] }
      (Or.inl rfl) (by simpa [stagePending] using hb1)
    constructor
    · show decide ((runMachine (pre ++ (uicpOpen ++ [w]) ++ b1)).stage ≠ Stage.none) = true
      rw [hr]
      rcases g1 with h | h | h <;> rw [h] <;> rfl
    · show (runMachine (pre ++ (uicpOpen ++ [w]) ++ b1)).completedBlocks =
        (runMachine pre).completedBlocks
      rw [hr, g5]
  · intro s₀ text
    rfl

/-- C4 (witness): concrete instance with `pre = "Hi "`, body prefix
`a\x60\x60b\x60` containing unwound fence characters — the run is pending and
has no completed block. -/
theorem c4_pending_within_body_witness :
    (runMachine ("Hi ".data)).stage = Stage.none ∧
    hasSeq closeFence ("a\x60\x60b\x60".data) = false ∧
    (parseStreamingContent
      (("Hi ".data) ++ (uicpOpen ++ ['\n']) ++ ("a\x60\x60b\x60".data))).hasPendingBlock
      = true ∧
    (parseStreamingContent
      (("Hi ".data) ++ (uicpOpen ++ ['\n']) ++ ("a\x60\x60b\x60".data))).completedBlocks
      = (runMachine ("Hi ".data)).completedBlocks :=
  ⟨rfl, rfl,
    (c4_pending_within_body.1 createStreamingParserState ("Hi ".data)
      ("a\x60\x60b\x60".data) '\n' rfl (Or.inl rfl) rfl).1,
    (c4_pending_within_body.1 createStreamingParserState ("Hi ".data)
      ("a\x60\x60b\x60".data) '\n' rfl (Or.inl rfl) rfl).2⟩

/-- C5: the extractor ignores the `currentState` argument (so re-running on
the same full text yields identical results), and extending the text only
extends the completed-block list: the blocks of any text are an initial
segment, reproduced identically, of the blocks of any extension. -/
theorem c5_idempotent_and_stable :
    (∀ (s₁ s₂ : StreamingParserState) (text : List Char),
      processStreamingContent s₁ text = processStreamingContent s₂ text) ∧
    (∀ (s₀ : StreamingParserState) (text ext : List Char),
      isStart (processStreamingContent s₀ text).completedBlocks
        (processStreamingContent s₀ (text ++ ext)).completedBlocks) := by
  constructor
  · intro s₁ s₂ text
    rfl
  · intro s₀ text ext
    show isStart (runMachine text).completedBlocks (runMachine (text ++ ext)).completedBlocks
    simp only [runMachine, runFrom_append]
    exact runFrom_blocks_isStart ext _

/-- C6 (counterexample): the claim asserts that every text containing a
delimited block with an unparseable body gets a logged diagnostic and a
dropped block with extraction continuing.  On the text
`\x60\x60\x60uicp notjson\x60\x60\x60`, which ends exactly at the closing
fence of such a block, the code logs no diagnostic at all and the machine
is still pending (the completion handler has not run). -/
theorem c6_no_diagnostic_at_stream_end :
    blockOutcome ("notjson".data) = Sum.inr LogEntry.parseFailed ∧
    (runMachine ("```uicp notjson```".data)).logs = [] ∧
    (parseStreamingContent ("```uicp notjson```".data)).completedBlocks = [] ∧
    (parseStreamingContent ("```uicp notjson```".data)).hasPendingBlock = true :=
  ⟨rfl, rfl, rfl, rfl⟩

/-- C6 (amended): a delimited block whose trimmed body is not parseable as
the minimal `(uid, data)` shape — the body containing no closing-fence
sequence and not ending in a fence character, so that the block's
delimitation is unambiguous — is dropped whole, provided the closing fence
is followed by at least one further, non-fence character: the machine state
after the block and that character equals a state that continues from the
pre-block display text plus that character — same completed blocks, no
placeholder, no body characters — with exactly one diagnostic appended to
the log.  (Without a following character the machine stays pending and
logs nothing — the C1 completion bug; a following fence character is
itself swallowed — the C2 drop bug.) -/
theorem c6_malformed_block_dropped (pre body rest : List Char) (w c : Char) (entry : LogEntry)
    (hpre : (runMachine pre).stage = Stage.none)
    (hw : w = '\n' ∨ w = ' ' ∨ w = '\t' ∨ w = '\r')
    (hbody : hasSeq closeFence body = false)
    (hlast : body.getLast? ≠ some '\x60')
    (hout : blockOutcome body = Sum.inr entry)
    (hc : c ≠ '\x60') :
    runMachine (pre ++ (uicpOpen ++ [w]) ++ body ++ closeFence ++ (c :: rest)) =
      runFrom
        { stage := Stage.none, buffer := [],
          displayContent := (runMachine pre).displayContent ++ [c],
          completedBlocks := (runMachine pre).completedBlocks,
          blockContent := [],
          logs := (runMachine pre).logs ++ [entry] } rest := by
  have h1 : runMachine (pre ++ (uicpOpen ++ [w]) ++ body ++ closeFence ++ (c :: rest))
      = runFrom (step (runFrom (runFrom (runFrom (runMachine pre)
          (uicpOpen ++ [w])) body) closeFence) c) rest := by
    simp only [runMachine, runFrom_append]
    rfl
  rw [run_open _ _ hpre hw] at h1
  rw [run_body_keep body _ rfl hbody hlast] at h1
  rw [run_close _ rfl] at h1
  rw [step_closing3_inr _ c entry rfl (by simpa using hout) hc] at h1
  exact h1

/-- C6 (witness): concrete instance with the unparseable body `oo\x60ps`
(containing an interior fence character): the run over the whole text
equals the run that skips the block, logs the parse failure, and continues
over the remaining text. -/
theorem c6_malformed_block_dropped_witness :
    (runMachine ("Hi ".data)).stage = Stage.none ∧
    blockOutcome ("oo\x60ps".data) = Sum.inr LogEntry.parseFailed ∧
    hasSeq closeFence ("oo\x60ps".data) = false ∧
    runMachine (("Hi ".data) ++ (uicpOpen ++ ['\n']) ++ ("oo\x60ps".data) ++ closeFence ++
        ('\n' :: ("ok".data))) =
      runFrom
        { stage := Stage.none, buffer := [],
          displayContent := (runMachine ("Hi ".data)).displayContent ++ ['\n'],
          completedBlocks := (runMachine ("Hi ".data)).completedBlocks,
          blockContent := [],
          logs := (runMachine ("Hi ".data)).logs ++ [LogEntry.parseFailed] } ("ok".data) :=
  ⟨rfl, rfl, rfl,
    c6_malformed_block_dropped ("Hi ".data) ("oo\x60ps".data) ("ok".data) '\n' '\n'
      LogEntry.parseFailed rfl (Or.inl rfl) rfl (by decide) rfl (by decide)⟩

set_option maxRecDepth 8000 in
/-- C7: blocks are emitted in the exact order their closing delimiter is
encountered and are replaced by ordinal placeholders: in general, each
consumed character either leaves the completed-block list unchanged or
appends exactly the one block whose closing delimiter it completes (the
list is append-only, never reordered), and for every input and every index
`k` below the number of completed blocks the placeholder
`__UICP_BLOCK_k__` occurs in the display text.  Concretely, the claim's
scenario input yields the display text `Hello __UICP_BLOCK_0__ world` and
exactly one block with uid `X` and `data.a = 1`, and a two-block input
yields placeholders 0 and 1 at the blocks' positions with `completedBlocks`
in closing-delimiter order. -/
theorem c7_placeholders_and_order :
    (parseStreamingContent helloInput).displayContent = ("Hello __UICP_BLOCK_0__ world".data) ∧
    (parseStreamingContent helloInput).completedBlocks = [helloBlock] ∧
    jget helloBlock uidKey = Json.str ("X".data) ∧
    jget (jget helloBlock dataKey) ("a".data) = Json.num 1 ∧
    (parseStreamingContent twoBlockInput).displayContent =
      ("A __UICP_BLOCK_0__ B __UICP_BLOCK_1__ C".data) ∧
    (parseStreamingContent twoBlockInput).completedBlocks = [helloBlock, secondBlock] ∧
    (∀ (s : InternalState) (c : Char),
      (step s c).completedBlocks = s.completedBlocks ∨
      ∃ b, blockOutcome s.blockContent = Sum.inl b ∧
        (step s c).completedBlocks = s.completedBlocks ++ [b]) ∧
    (∀ (s₀ : StreamingParserState) (text : List Char) (k : Nat),
      k < (processStreamingContent s₀ text).completedBlocks.length →
      hasSeq (placeholderFor k) (processStreamingContent s₀ text).displayContent = true) := by
  refine ⟨rfl, rfl, rfl, rfl, rfl, rfl, step_blocks, ?_⟩
  intro s₀ text k hk
  exact placeholder_inv text initialInternalState
    (fun i hi => absurd hi (Nat.not_lt_zero i)) k hk

set_option maxRecDepth 8000 in
/-- C7 (witness): the placeholder-occurrence part applied at the scenario
input and index 0. -/
theorem c7_placeholders_and_order_witness :
    0 < (parseStreamingContent helloInput).completedBlocks.length ∧
    hasSeq (placeholderFor 0) (parseStreamingContent helloInput).displayContent = true := by
  have hlen : (parseStreamingContent helloInput).completedBlocks.length = 1 := rfl
  have h0 : 0 < (parseStreamingContent helloInput).completedBlocks.length := by
    rw [hlen]
    exact Nat.zero_lt_one
  exact ⟨h0,
    c7_placeholders_and_order.2.2.2.2.2.2.2 createStreamingParserState helloInput 0 h0⟩

/-- C8: `loadDefinitionsWithCache` on a string source returns the cached
definitions exactly when an entry for that source exists with age strictly
below the ttl (leaving the cache untouched and issuing no load); otherwise
it invokes the underlying load and stores the result under the current
timestamp; ttl `0` always reloads; and in the two-calls-within-1000ms
scenario exactly the first and the third call load. -/
theorem c8_loadDefinitionsWithCache_ttl :
    (∀ (α : Type) (load : String → α) (now : Nat) (cache : List (String × CacheEntry α))
      (src : String) (ttl : Nat) (e : CacheEntry α),
      cacheGet cache src = some e → now - e.timestamp < ttl →
      loadDefinitionsWithCache load now cache (Sum.inl src) ttl = ⟨e.data, cache, false⟩) ∧
    (∀ (α : Type) (load : String → α) (now : Nat) (cache : List (String × CacheEntry α))
      (src : String) (ttl : Nat) (e : CacheEntry α),
      cacheGet cache src = some e → ¬ now - e.timestamp < ttl →
      loadDefinitionsWithCache load now cache (Sum.inl src) ttl =
        ⟨load src, cacheSet cache src ⟨load src, now⟩, true⟩) ∧
    (∀ (α : Type) (load : String → α) (now : Nat) (cache : List (String × CacheEntry α))
      (src : String) (ttl : Nat),
      cacheGet cache src = none →
      loadDefinitionsWithCache load now cache (Sum.inl src) ttl =
        ⟨load src, cacheSet cache src ⟨load src, now⟩, true⟩) ∧
    (∀ (α : Type) (load : String → α) (now : Nat) (cache : List (String × CacheEntry α))
      (src : String),
      (loadDefinitionsWithCache load now cache (Sum.inl src) 0).didLoad = true) ∧
    (∀ (α : Type) (load : String → α) (src : String) (t0 t1 t2 : Nat),
      t1 - t0 < 1000 → 1000 ≤ t2 - t0 →
      (loadDefinitionsWithCache load t0 [] (Sum.inl src) 1000).didLoad = true ∧
      (loadDefinitionsWithCache load t1
        (loadDefinitionsWithCache load t0 [] (Sum.inl src) 1000).cache
        (Sum.inl src) 1000).didLoad = false ∧
      (loadDefinitionsWithCache load t2
        (loadDefinitionsWithCache load t1
          (loadDefinitionsWithCache load t0 [] (Sum.inl src) 1000).cache
          (Sum.inl src) 1000).cache
        (Sum.inl src) 1000).didLoad = true) := by
  refine ⟨?_, ?_, ?_, ?_, ?_⟩
  · intro α load now cache src ttl e hget hlt
    simp only [loadDefinitionsWithCache, hget]
    rw [if_pos hlt]
  · intro α load now cache src ttl e hget hlt
    simp only [loadDefinitionsWithCache, hget]
    rw [if_neg hlt]
  · intro α load now cache src ttl hget
    simp only [loadDefinitionsWithCache, hget]
  · intro α load now cache src
    cases hget : cacheGet cache src with
    | none => simp only [loadDefinitionsWithCache, hget]
    | some e =>
      simp only [loadDefinitionsWithCache, hget]
      rw [if_neg (by omega : ¬ now - e.timestamp < 0)]
  · intro α load src t0 t1 t2 h1 h2
    have hr1 : loadDefinitionsWithCache load t0 [] (Sum.inl src) 1000 =
        ⟨load src, cacheSet [] src ⟨load src, t0⟩, true⟩ := rfl
    have hr1c : (loadDefinitionsWithCache load t0 [] (Sum.inl src) 1000).cache =
        cacheSet [] src ⟨load src, t0⟩ := by rw [hr1]
    have hg : cacheGet (cacheSet [] src ⟨load src, t0⟩) src = some ⟨load src, t0⟩ :=
      cacheGet_cacheSet [] src _
    have hr2 : loadDefinitionsWithCache load t1 (cacheSet [] src ⟨load src, t0⟩)
        (Sum.inl src) 1000 = ⟨load src, cacheSet [] src ⟨load src, t0⟩, false⟩ := by
      simp only [loadDefinitionsWithCache, hg]
      rw [if_pos h1]
    have hr2c : (loadDefinitionsWithCache load t1 (cacheSet [] src ⟨load src, t0⟩)
        (Sum.inl src) 1000).cache = cacheSet [] src ⟨load src, t0⟩ := by rw [hr2]
    refine ⟨by rw [hr1], by rw [hr1c, hr2], ?_⟩
    rw [hr1c, hr2c]
    simp only [loadDefinitionsWithCache, hg]
    rw [if_neg (Nat.not_lt.mpr h2)]

/-- C8 (witness): concrete cached hit at age 5 with ttl 1000, and the
0ms/500ms/1500ms scenario issuing loads exactly on the first and third
call. -/
theorem c8_loadDefinitionsWithCache_ttl_witness :
    cacheGet [(("defs.json" : String), (⟨7, 5⟩ : CacheEntry Nat))] ("defs.json") =
      some ⟨7, 5⟩ ∧
    loadDefinitionsWithCache (fun _ => 7) 10 [(("defs.json" : String), ⟨7, 5⟩)]
      (Sum.inl ("defs.json")) 1000 = ⟨7, [(("defs.json" : String), ⟨7, 5⟩)], false⟩ ∧
    (loadDefinitionsWithCache (fun _ => (7 : Nat)) 0 [] (Sum.inl ("defs.json")) 1000).didLoad
      = true ∧
    (loadDefinitionsWithCache (fun _ => (7 : Nat)) 500
      (loadDefinitionsWithCache (fun _ => (7 : Nat)) 0 [] (Sum.inl ("defs.json")) 1000).cache
      (Sum.inl ("defs.json")) 1000).didLoad = false ∧
    (loadDefinitionsWithCache (fun _ => (7 : Nat)) 1500
      (loadDefinitionsWithCache (fun _ => (7 : Nat)) 500
        (loadDefinitionsWithCache (fun _ => (7 : Nat)) 0 [] (Sum.inl ("defs.json")) 1000).cache
        (Sum.inl ("defs.json")) 1000).cache
      (Sum.inl ("defs.json")) 1000).didLoad = true :=
  ⟨rfl,
    c8_loadDefinitionsWithCache_ttl.1 Nat (fun _ => 7) 10 _ ("defs.json") 1000 ⟨7, 5⟩
      rfl (by decide),
    (c8_loadDefinitionsWithCache_ttl.2.2.2.2 Nat (fun _ => 7) ("defs.json") 0 500 1500
      (by decide) (by decide)).1,
    (c8_loadDefinitionsWithCache_ttl.2.2.2.2 Nat (fun _ => 7) ("defs.json") 0 500 1500
      (by decide) (by decide)).2.1,
    (c8_loadDefinitionsWithCache_ttl.2.2.2.2 Nat (fun _ => 7) ("defs.json") 0 500 1500
      (by decide) (by decide)).2.2⟩

/-- C9: `loadComponent` is a total function (never an exception): a
registry hit is returned with no resolution attempt; on a miss, successful
resolution registers the handle under the uid — so an immediately repeated
call is served from the table — and returns it; failed resolution (either
a rejected import or no usable export) leaves the registry untouched and
returns the explicit absent result. -/
theorem c9_loadComponent_total :
    (∀ (ν ε : Type) (importFn : String → Except ε (List (String × ExportVal ν)))
      (registry : List (String × ExportVal ν)) (uid p bp : String) (h : ExportVal ν),
      getComponent registry uid = some h →
      loadComponent importFn registry uid p bp = ⟨some h, registry, false⟩) ∧
    (∀ (ν ε : Type) (importFn : String → Except ε (List (String × ExportVal ν)))
      (registry : List (String × ExportVal ν)) (uid p bp : String) (c : ExportVal ν),
      getComponent registry uid = none →
      resolveComponent importFn uid p bp = some c →
      loadComponent importFn registry uid p bp =
        ⟨some c, registerComponent registry uid c, true⟩ ∧
      loadComponent importFn (registerComponent registry uid c) uid p bp =
        ⟨some c, registerComponent registry uid c, false⟩) ∧
    (∀ (ν ε : Type) (importFn : String → Except ε (List (String × ExportVal ν)))
      (registry : List (String × ExportVal ν)) (uid p bp : String),
      getComponent registry uid = none →
      resolveComponent importFn uid p bp = none →
      loadComponent importFn registry uid p bp = ⟨none, registry, true⟩) := by
  refine ⟨?_, ?_, ?_⟩
  · intro ν ε importFn registry uid p bp h hget
    simp only [loadComponent, hget]
  · intro ν ε importFn registry uid p bp c hget hres
    constructor
    · simp only [loadComponent, hget, hres]
    · simp only [loadComponent, getComponent_registerComponent registry uid c]
  · intro ν ε importFn registry uid p bp hget hres
    simp only [loadComponent, hget, hres]

/-- C9 (witness): concrete registry hit without resolution; miss with a
default-export module that is resolved, registered and then served from
the table; and a rejected import yielding the absent result. -/
theorem c9_loadComponent_total_witness :
    getComponent [(("Card" : String), (⟨ExportKind.function, 1⟩ : ExportVal Nat))] ("Card") =
      some ⟨ExportKind.function, 1⟩ ∧
    loadComponent (fun _ => (Except.error () : Except Unit (List (String × ExportVal Nat))))
      [(("Card" : String), ⟨ExportKind.function, 1⟩)] ("Card") ("card.tsx")
      ("/components/uicp") =
      ⟨some ⟨ExportKind.function, 1⟩, [(("Card" : String), ⟨ExportKind.function, 1⟩)], false⟩ ∧
    resolveComponent
      (fun _ => (Except.ok [(("default" : String), ⟨ExportKind.function, 2⟩)] :
        Except Unit (List (String × ExportVal Nat))))
      ("Card") ("card.tsx") ("/components/uicp") = some ⟨ExportKind.function, 2⟩ ∧
    loadComponent
      (fun _ => (Except.ok [(("default" : String), ⟨ExportKind.function, 2⟩)] :
        Except Unit (List (String × ExportVal Nat))))
      [] ("Card") ("card.tsx") ("/components/uicp") =
      ⟨some ⟨ExportKind.function, 2⟩,
        registerComponent [] ("Card") ⟨ExportKind.function, 2⟩, true⟩ ∧
    loadComponent (fun _ => (Except.error () : Except Unit (List (String × ExportVal Nat))))
      [] ("Card") ("card.tsx") ("/components/uicp") = ⟨none, [], true⟩ :=
  ⟨rfl,
    c9_loadComponent_total.1 Nat Unit
      (fun _ => (Except.error () : Except Unit (List (String × ExportVal Nat))))
      [(("Card" : String), ⟨ExportKind.function, 1⟩)] ("Card") ("card.tsx")
      ("/components/uicp") ⟨ExportKind.function, 1⟩ rfl,
    rfl,
    (c9_loadComponent_total.2.1 Nat Unit
      (fun _ => (Except.ok [(("default" : String), ⟨ExportKind.function, 2⟩)] :
        Except Unit (List (String × ExportVal Nat))))
      [] ("Card") ("card.tsx") ("/components/uicp")
      ⟨ExportKind.function, 2⟩ rfl rfl).1,
    c9_loadComponent_total.2.2 Nat Unit
      (fun _ => (Except.error () : Except Unit (List (String × ExportVal Nat))))
      [] ("Card") ("card.tsx") ("/components/uicp")
      rfl rfl⟩

/-- C10: every extractor result satisfies the invariant that each completed
block has truthy `uid` and `data` members, and the flags are consistent:
`isInUICPBlock` implies `hasPendingBlock`. -/
theorem c10_result_invariant (s₀ : StreamingParserState) (text : List Char) :
    (∀ b ∈ (processStreamingContent s₀ text).completedBlocks,
      truthy (jget b uidKey) = true ∧ truthy (jget b dataKey) = true) ∧
    ((processStreamingContent s₀ text).isInUICPBlock = true →
      (processStreamingContent s₀ text).hasPendingBlock = true) := by
  constructor
  · intro b hb
    exact runFrom_blocks_good text initialInternalState (by intro b h; cases h) b hb
  · intro hin
    have hor := of_decide_eq_true hin
    apply decide_eq_true
    intro hnone
    rcases hor with h | h | h | h <;> rw [hnone] at h <;> cases h

/-- C10 (witness): the invariant applied to a concrete run with one
completed block and to a concrete pending run inside a block. -/
theorem c10_result_invariant_witness :
    truthy (jget validBlock uidKey) = true ∧
    truthy (jget validBlock dataKey) = true ∧
    (parseStreamingContent ("```uicp x".data)).isInUICPBlock = true ∧
    (parseStreamingContent ("```uicp x".data)).hasPendingBlock = true := by
  have hmem : validBlock ∈ (parseStreamingContent (fenceEndInput ++ ['\n'])).completedBlocks := by
    have h : (parseStreamingContent (fenceEndInput ++ ['\n'])).completedBlocks = [validBlock] :=
      rfl
    rw [h]
    exact List.mem_singleton_self _
  obtain ⟨h1, h2⟩ :=
    (c10_result_invariant createStreamingParserState (fenceEndInput ++ ['\n'])).1 validBlock hmem
  exact ⟨h1, h2, rfl,
    (c10_result_invariant createStreamingParserState ("```uicp x".data)).2 rfl⟩

end UICP
